import Mathlib

/-!
Shallow embedding of the `MinimumBoundingRectangle` geometric kernel
(rotating-calipers minimum-area bounding rectangle over the convex hull of
the horizontal projection of a 3-D point set), translated from the
TypeScript source file `mbr.ts`.

JavaScript numbers are modelled as real numbers `ℝ`.  The `Infinity`
sentinels used by the source to seed running minima/maxima are realized by
starting the corresponding folds at the first list element (every such fold
in the source runs over a nonempty list); `listMin`/`listMax` below return
`0` on the empty list, a case the guarded call sites never reach.
`Map`-based deduplication keyed by the string `"${round(rx/eps)},${round(rz/eps)}"`
is modelled by a first-occurrence scan keyed by the integer pair
`(round (rx/eps), round (rz/eps))` (the string encoding of an integer pair
is injective).  `Array.prototype.sort`, which ECMAScript requires to be a
stable sort (behaviour is implementation-defined when the comparator is not
a consistent ordering, as a tolerance-based comparator is not), is modelled
by the stable insertion sort `List.insertionSort` over the relation
"comparator result ≤ 0".
-/

noncomputable section

namespace MBR

open Real

/-- Model of `THREE.Vector2`: a point of the horizontal (x, z) plane.  The
source stores the z world coordinate into the `y` field of `Vector2`. -/
structure Vector2 where
  x : ℝ
  y : ℝ

/-- Model of `THREE.Vector3`. -/
structure Vector3 where
  x : ℝ
  y : ℝ
  z : ℝ

/-- Model of `Vector2.dot` of three.js. -/
def Vector2.dot (v w : Vector2) : ℝ := v.x * w.x + v.y * w.y

/-- Model of `Vector2.length` of three.js: `sqrt (x*x + y*y)`. -/
def Vector2.len (v : Vector2) : ℝ := Real.sqrt (v.x * v.x + v.y * v.y)

/-- Model of `Vector2.normalize` of three.js: `divideScalar (length || 1)`; a
zero-length vector is left unchanged (division by `1`). -/
def normalize (v : Vector2) : Vector2 :=
  if v.len = 0 then v else ⟨v.x / v.len, v.y / v.len⟩

/-- Model of `a.distanceTo b` of three.js. -/
def Vector2.distanceTo (a b : Vector2) : ℝ :=
  Real.sqrt ((a.x - b.x) * (a.x - b.x) + (a.y - b.y) * (a.y - b.y))

/-- Model of `Math.atan2 y x` (signed zeros aside, which `ℝ` does not have). -/
def atan2 (y x : ℝ) : ℝ :=
  if 0 < x then Real.arctan (y / x)
  else if x < 0 then
    (if 0 ≤ y then Real.arctan (y / x) + Real.pi else Real.arctan (y / x) - Real.pi)
  else
    (if 0 < y then Real.pi / 2 else if y < 0 then -(Real.pi / 2) else 0)

/-- Rotation part of a `THREE.Matrix4`; the kernel only ever stores pure
rotations about the vertical axis, whose homogeneous translation part is
zero, so a 3×3 matrix of row entries suffices. -/
structure Matrix4 where
  r00 : ℝ
  r01 : ℝ
  r02 : ℝ
  r10 : ℝ
  r11 : ℝ
  r12 : ℝ
  r20 : ℝ
  r21 : ℝ
  r22 : ℝ

/-- The identity matrix, the value of a fresh `new THREE.Matrix4()`. -/
def identity4 : Matrix4 := ⟨1, 0, 0, 0, 1, 0, 0, 0, 1⟩

/-- Model of `Matrix4.makeRotationY θ` of three.js. -/
def makeRotationY (θ : ℝ) : Matrix4 :=
  ⟨Real.cos θ, 0, Real.sin θ, 0, 1, 0, -Real.sin θ, 0, Real.cos θ⟩

/-- Model of `Vector3.applyMatrix4` restricted to rotation matrices (w = 1, zero
translation column). -/
def applyMat (m : Matrix4) (v : Vector3) : Vector3 :=
  ⟨m.r00 * v.x + m.r01 * v.y + m.r02 * v.z,
   m.r10 * v.x + m.r11 * v.y + m.r12 * v.z,
   m.r20 * v.x + m.r21 * v.y + m.r22 * v.z⟩

/-- Application of the transpose, i.e. of the inverse for a rotation
matrix: it maps world coordinates into the matrix's local frame. -/
def applyTranspose (m : Matrix4) (v : Vector3) : Vector3 :=
  ⟨m.r00 * v.x + m.r10 * v.y + m.r20 * v.z,
   m.r01 * v.x + m.r11 * v.y + m.r21 * v.z,
   m.r02 * v.x + m.r12 * v.y + m.r22 * v.z⟩

/-- Componentwise addition of `Vector3` (`Vector3.add`). -/
def v3add (a b : Vector3) : Vector3 := ⟨a.x + b.x, a.y + b.y, a.z + b.z⟩

/-- Componentwise subtraction of `Vector3` (`Vector3.sub`). -/
def v3sub (a b : Vector3) : Vector3 := ⟨a.x - b.x, a.y - b.y, a.z - b.z⟩

/-- Model of `THREE.Box3`: an axis-aligned box given by min/max corners. -/
structure Box3 where
  lo : Vector3
  hi : Vector3

/-- Model of `Box3.expandByPoint` of three.js. -/
def expandByPoint (b : Box3) (v : Vector3) : Box3 :=
  ⟨⟨min b.lo.x v.x, min b.lo.y v.y, min b.lo.z v.z⟩,
   ⟨max b.hi.x v.x, max b.hi.y v.y, max b.hi.z v.z⟩⟩

/-- Model of `Box3.setFromPoints` of three.js: `makeEmpty` then expand by every
point.  The empty box's `±Infinity` sentinels are realized by seeding the
fold with the first point; the only call site passes a list of 8 points. -/
def setFromPoints : List Vector3 → Box3
  | [] => ⟨⟨0, 0, 0⟩, ⟨0, 0, 0⟩⟩
  | v :: vs => vs.foldl expandByPoint ⟨v, v⟩

/-- Minimum of a list of reals; on a nonempty list this equals the source's
fold of `Math.min` seeded with `Infinity`.  Unreached on `[]` (junk `0`). -/
def listMin : List ℝ → ℝ
  | [] => 0
  | a :: l => l.foldl min a

/-- Maximum of a list of reals; on a nonempty list this equals the source's
fold of `Math.max` seeded with `-Infinity`.  Unreached on `[]` (junk `0`). -/
def listMax : List ℝ → ℝ
  | [] => 0
  | a :: l => l.foldl max a

/-- The mutable state of a `MinimumBoundingRectangle` instance. -/
structure MinimumBoundingRectangle where
  center : Vector3
  halfSizes : Vector3
  rotation : Matrix4

/-- A freshly constructed `new MinimumBoundingRectangle()`: zero center,
zero half-sizes, identity rotation. -/
def mbrInit : MinimumBoundingRectangle := ⟨⟨0, 0, 0⟩, ⟨0, 0, 0⟩, identity4⟩

/-- The deduplication tolerance `epsilon = 1e-6` (source line 28). -/
def epsDedup : ℝ := 1 / 1000000

/-- The direction-comparison tolerance `epsilon = 1e-10` (source line 129),
also the polar-angle tie tolerance of the hull sort (source line 188). -/
def epsDir : ℝ := 1 / 10000000000

/-- Model of `crossProduct` (source lines 213–215). -/
def crossProduct (p1 p2 p3 : Vector2) : ℝ :=
  (p2.x - p1.x) * (p3.y - p1.y) - (p2.y - p1.y) * (p3.x - p1.x)

/-- Group a flat coordinate array into (x, y, z) triples, as the loops
`for (let i = 0; i < points.length; i += 3)` read it.  A trailing
incomplete triple, which in JavaScript would read `undefined` and poison
the computation with `NaN`, is outside the real-valued model and dropped. -/
def toTriples : List ℝ → List (ℝ × ℝ × ℝ)
  | x :: y :: z :: rest => (x, y, z) :: toTriples rest
  | _ => []

/-- Model of `centroidX` of `fromPoints` (source lines 31–36): the mean of the
first coordinates, with divisor `points.length / 3`. -/
def centroidX (points : List ℝ) : ℝ :=
  ((toTriples points).map fun t => t.1).sum / ((points.length : ℝ) / 3)

/-- Model of `centroidZ` of `fromPoints` (source lines 31–37). -/
def centroidZ (points : List ℝ) : ℝ :=
  ((toTriples points).map fun t => t.2.2).sum / ((points.length : ℝ) / 3)

/-- The deduplication scan of `fromPoints` (source lines 40–56): walk the
triples in order; each triple is keyed by its centered horizontal
coordinates rounded to the `epsDedup` grid; the first triple of each key is
kept (as its centered `(rx, y, rz)`), later triples with a seen key are
dropped entirely — in particular their `y` does not reach `minY`/`maxY`.
The source also accumulates kept raw triples into `tempVec` (line 54);
that accumulator is never read afterwards (dead code) and is omitted. -/
def uniqueScan (cx cz : ℝ) : List (ℝ × ℝ × ℝ) → List (ℤ × ℤ) → List (ℝ × ℝ × ℝ)
  | [], _ => []
  | (x, y, z) :: rest, seen =>
    let rx := x - cx
    let rz := z - cz
    let key : ℤ × ℤ := (round (rx / epsDedup), round (rz / epsDedup))
    if key ∈ seen then uniqueScan cx cz rest seen
    else (rx, y, rz) :: uniqueScan cx cz rest (key :: seen)

/-- The kept (first-occurrence) centered triples of an input array. -/
def keptTriples (points : List ℝ) : List (ℝ × ℝ × ℝ) :=
  uniqueScan (centroidX points) (centroidZ points) (toTriples points) []

/-- Model of `points2D` of `fromPoints` (source lines 24, 50–51): the deduplicated
centered horizontal projections, in first-occurrence order. -/
def points2D (points : List ℝ) : List Vector2 :=
  (keptTriples points).map fun t => ⟨t.1, t.2.2⟩

/-- The vertical coordinates that reach the `minY`/`maxY` folds (source
lines 52–53): only those of kept (first-occurrence) triples. -/
def keptYs (points : List ℝ) : List ℝ :=
  (keptTriples points).map fun t => t.2.1

/-- Model of `minY` of `fromPoints` (source lines 25, 52). -/
def mbrMinY (points : List ℝ) : ℝ := listMin (keptYs points)

/-- Model of `maxY` of `fromPoints` (source lines 26, 53). -/
def mbrMaxY (points : List ℝ) : ℝ := listMax (keptYs points)

/-- The polar angle of `p` around `bottomPoint` (source lines 186–187). -/
def angleAround (bottomPoint p : Vector2) : ℝ :=
  atan2 (p.y - bottomPoint.y) (p.x - bottomPoint.x)

/-- The sort comparator of `grahamScan` (source lines 185–194): angles
within `1e-10` are tie-broken by distance to the pivot, ascending. -/
def polarCompare (bottomPoint a b : Vector2) : ℝ :=
  if |angleAround bottomPoint a - angleAround bottomPoint b| < epsDir then
    a.distanceTo bottomPoint - b.distanceTo bottomPoint
  else
    angleAround bottomPoint a - angleAround bottomPoint b

open Classical in
/-- The stable sort by `polarCompare` (source lines 183–195); see the file
header on modelling `Array.prototype.sort`. -/
def sortByAngle (bottomPoint : Vector2) (l : List Vector2) : List Vector2 :=
  l.insertionSort fun a b => polarCompare bottomPoint a b ≤ 0

/-- The bottom-point selection loop of `grahamScan` (source lines 172–180):
strict comparisons, so the first point attaining the minimum (lowest `y`,
then lowest `x`) wins. -/
def bottomAux : Vector2 → ℕ → ℕ → List Vector2 → Vector2 × ℕ
  | bp, bi, _, [] => (bp, bi)
  | bp, bi, i, p :: rest =>
    if p.y < bp.y ∨ (p.y = bp.y ∧ p.x < bp.x) then bottomAux p i (i + 1) rest
    else bottomAux bp bi (i + 1) rest

open Classical in
/-- The pop loop of the scan (source lines 201–206): while the stack holds
at least two points and the top two together with the candidate make a
non-left turn (`crossProduct ≤ 0`), pop.  The stack is held top-first. -/
def popWhile : List Vector2 → Vector2 → List Vector2
  | b :: a :: rest, p =>
    if crossProduct a b p ≤ 0 then popWhile (a :: rest) p else b :: a :: rest
  | stack, _ => stack

/-- The scan loop (source lines 198–210): `sortedPoints` is
`p0 :: sorted`, the stack is seeded with `[sortedPoints[0], sortedPoints[1]]`
and the loop runs from index 2; the stack is held top-first and reversed at
the end.  The `[]` arm (fewer than 2 sorted points) is unreachable behind
the `< 3` guard and returns the junk seed. -/
def scanStack (p0 : Vector2) (sorted : List Vector2) : List Vector2 :=
  match sorted with
  | p1 :: rest => (rest.foldl (fun stack p => p :: popWhile stack p) [p1, p0]).reverse
  | [] => [p0]

/-- Model of `grahamScan` (source lines 168–211). -/
def grahamScan (points : List Vector2) : List Vector2 :=
  if points.length < 3 then points
  else
    let bottom : Vector2 × ℕ :=
      match points with
      | [] => (⟨0, 0⟩, 0)
      | p :: rest => bottomAux p 0 1 rest
    scanStack bottom.1 (sortByAngle bottom.1 (points.eraseIdx bottom.2))

/-- Model of `getExtremeProjections` (source lines 152–166): the (min, max) of the
dot products of the points with `direction`. -/
def getExtremeProjections (points : List Vector2) (direction : Vector2) : ℝ × ℝ :=
  (listMin (points.map fun p => p.dot direction),
   listMax (points.map fun p => p.dot direction))

open Classical in
/-- Loop body of `getUniqueEdgeDirections` (source lines 131–147): the
`i`-th edge direction is appended unless some already kept direction has a
dot product within `1e-10` of `1` with it (the source's inner loop with
`break` is the existential over the kept prefix). -/
def uniqueDirStep (hull : List Vector2) (directions : List Vector2) (i : ℕ) :
    List Vector2 :=
  let p1 := hull.getD i ⟨0, 0⟩
  let p2 := hull.getD ((i + 1) % hull.length) ⟨0, 0⟩
  let edge := normalize ⟨p2.x - p1.x, p2.y - p1.y⟩
  if ∃ dir ∈ directions, |edge.dot dir - 1| < epsDir then directions
  else directions ++ [edge]

/-- Model of `getUniqueEdgeDirections` (source lines 127–150): normalized edge
directions of the hull in edge order, deduplicated by `uniqueDirStep`. -/
def getUniqueEdgeDirections (hull : List Vector2) : List Vector2 :=
  (List.range hull.length).foldl (uniqueDirStep hull) []

/-- The candidate rectangle record of `enhancedRotatingCalipers`. -/
structure CandidateRect where
  center : Vector2
  width : ℝ
  height : ℝ
  angle : ℝ

/-- The zero rectangle returned on degenerate input (source lines 88, 124). -/
def zeroRect : CandidateRect := ⟨⟨0, 0⟩, 0, 0, 0⟩

/-- The per-direction computation of the calipers loop body (source lines
98–120).  The source computes `center`/`angle` only for an improving
direction; computing them unconditionally yields the same fold result. -/
def candidateFor (hull : List Vector2) (direction : Vector2) : CandidateRect :=
  let perpendicular : Vector2 := ⟨-direction.y, direction.x⟩
  let pr := getExtremeProjections hull direction
  let pp := getExtremeProjections hull perpendicular
  { center := ⟨(pr.1 + pr.2) * direction.x / 2 + (pp.1 + pp.2) * perpendicular.x / 2,
               (pr.1 + pr.2) * direction.y / 2 + (pp.1 + pp.2) * perpendicular.y / 2⟩
    width := pr.2 - pr.1
    height := pp.2 - pp.1
    angle := atan2 direction.y direction.x }

open Classical in
/-- One step of the minimum-area tracking fold (source lines 91–122): the
`minArea = Infinity, bestRect = null` seed is the `none` accumulator, and
`minArea` always equals the area of the tracked `bestRect`, so the strict
comparison `area < minArea` updates exactly as below. -/
def calipersStep (hull : List Vector2) (acc : Option CandidateRect) (d : Vector2) :
    Option CandidateRect :=
  let r := candidateFor hull d
  match acc with
  | none => some r
  | some b => if r.width * r.height < b.width * b.height then some r else some b

/-- Model of `enhancedRotatingCalipers` (source lines 81–125). -/
def enhancedRotatingCalipers (hull : List Vector2) : CandidateRect :=
  if hull.length < 3 then zeroRect
  else
    match (getUniqueEdgeDirections hull).foldl (calipersStep hull) none with
    | some r => r
    | none => zeroRect

/-- Model of `fromPoints` (source lines 17–79).  The receiver `m` is returned
unchanged on the two warning paths (fewer than 9 scalar values, fewer than
3 unique deduplicated points); otherwise the three fields are overwritten
from the calipers result, the vertical extent and the centroid. -/
def fromPoints (m : MinimumBoundingRectangle) (points : List ℝ) :
    MinimumBoundingRectangle :=
  if points.length < 9 then m
  else if (points2D points).length < 3 then m
  else
    let hull := grahamScan (points2D points)
    let result := enhancedRotatingCalipers hull
    { center := ⟨result.center.x + centroidX points,
                 (mbrMinY points + mbrMaxY points) * 0.5,
                 result.center.y + centroidZ points⟩
      halfSizes := ⟨result.width * 0.5,
                    (mbrMaxY points - mbrMinY points) * 0.5,
                    result.height * 0.5⟩
      rotation := makeRotationY (-result.angle) }

/-- Model of `toBox3` (source lines 217–234): the 8 corner offsets `±halfSizes`,
rotated then translated by the center, folded into an axis-aligned box. -/
def toBox3 (m : MinimumBoundingRectangle) : Box3 :=
  let vertices : List Vector3 :=
    [⟨-m.halfSizes.x, -m.halfSizes.y, -m.halfSizes.z⟩,
     ⟨m.halfSizes.x, -m.halfSizes.y, -m.halfSizes.z⟩,
     ⟨m.halfSizes.x, m.halfSizes.y, -m.halfSizes.z⟩,
     ⟨-m.halfSizes.x, m.halfSizes.y, -m.halfSizes.z⟩,
     ⟨-m.halfSizes.x, -m.halfSizes.y, m.halfSizes.z⟩,
     ⟨m.halfSizes.x, -m.halfSizes.y, m.halfSizes.z⟩,
     ⟨m.halfSizes.x, m.halfSizes.y, m.halfSizes.z⟩,
     ⟨-m.halfSizes.x, m.halfSizes.y, m.halfSizes.z⟩]
  setFromPoints (vertices.map fun v => v3add (applyMat m.rotation v) m.center)

/-! ### Properties stated by the specification, phrased over the embedding -/

/-- Area of a candidate rectangle. -/
def rectArea (r : CandidateRect) : ℝ := r.width * r.height

/-- Strict convexity in counter-clockwise order, cyclically: every triple
of cyclically consecutive vertices makes a strict left turn. -/
def cyclicTriplesPos (l : List Vector2) : Prop :=
  ∀ i, i < l.length →
    0 < crossProduct (l.getD i ⟨0, 0⟩) (l.getD ((i + 1) % l.length) ⟨0, 0⟩)
      (l.getD ((i + 2) % l.length) ⟨0, 0⟩)

/-- Every three consecutive vertices (no wraparound) make a strict left
turn. -/
def chain3Pos : List Vector2 → Prop
  | a :: b :: c :: rest => 0 < crossProduct a b c ∧ chain3Pos (b :: c :: rest)
  | _ => True

/-- The area of the edge-aligned bounding rectangle of `hull` for its
`i`-th edge: extreme projections onto the normalized edge direction and
onto its perpendicular (the geometric area of the claim's "rectangle
spanned by the extreme projections onto d and its perpendicular"). -/
def edgeAlignedArea (hull : List Vector2) (i : ℕ) : ℝ :=
  let p1 := hull.getD i ⟨0, 0⟩
  let p2 := hull.getD ((i + 1) % hull.length) ⟨0, 0⟩
  let d := normalize ⟨p2.x - p1.x, p2.y - p1.y⟩
  let perp : Vector2 := ⟨-d.y, d.x⟩
  let pr := getExtremeProjections hull d
  let pp := getExtremeProjections hull perp
  (pr.2 - pr.1) * (pp.2 - pp.1)

/-- The coordinates of `p` in the box's rotated local frame, offset from
the box center. -/
def localOffset (m : MinimumBoundingRectangle) (p : Vector3) : Vector3 :=
  applyTranspose m.rotation (v3sub p m.center)

/-- Containment of a point in the oriented box, with slack `tol` on each
half-size bound in the local rotated frame. -/
def insideBox (m : MinimumBoundingRectangle) (p : Vector3) (tol : ℝ) : Prop :=
  |(localOffset m p).x| ≤ m.halfSizes.x + tol ∧
  |(localOffset m p).y| ≤ m.halfSizes.y + tol ∧
  |(localOffset m p).z| ≤ m.halfSizes.z + tol

/-- All points of the list lie on one line. -/
def collinearPts (l : List Vector2) : Prop :=
  ∀ p ∈ l, ∀ q ∈ l, ∀ r ∈ l, crossProduct p q r = 0

/-- The degenerate inputs of the specification: fewer than 3 raw points,
fewer than 3 unique deduplicated points, or a collinear point set. -/
def degenerateInput (points : List ℝ) : Prop :=
  points.length < 9 ∨ (points2D points).length < 3 ∨ collinearPts (points2D points)

/-- The 8 corners of the oriented box as the specification describes them:
the local-frame offsets `±halfSizes` per axis, rotated, then translated by
the center. -/
def orientedCorners (m : MinimumBoundingRectangle) : List Vector3 :=
  [⟨-m.halfSizes.x, -m.halfSizes.y, -m.halfSizes.z⟩,
   ⟨m.halfSizes.x, -m.halfSizes.y, -m.halfSizes.z⟩,
   ⟨m.halfSizes.x, m.halfSizes.y, -m.halfSizes.z⟩,
   ⟨-m.halfSizes.x, m.halfSizes.y, -m.halfSizes.z⟩,
   ⟨-m.halfSizes.x, -m.halfSizes.y, m.halfSizes.z⟩,
   ⟨m.halfSizes.x, -m.halfSizes.y, m.halfSizes.z⟩,
   ⟨m.halfSizes.x, m.halfSizes.y, m.halfSizes.z⟩,
   (⟨-m.halfSizes.x, m.halfSizes.y, m.halfSizes.z⟩ : Vector3)].map
    fun v => v3add (applyMat m.rotation v) m.center

/-! ### Concrete inputs and auxiliary forms used by the evidence -/

/-- The calipers fold, rewritten with an explicit running best. -/
def bestOf (hull : List Vector2) (b0 : CandidateRect) : List Vector2 → CandidateRect
  | [] => b0
  | d :: ds =>
    bestOf hull
      (if (candidateFor hull d).width * (candidateFor hull d).height < b0.width * b0.height
        then candidateFor hull d else b0) ds

/-- The invariant of the scan stack (held top-first): reading away from the
top, every adjacent triple `c, b, a` (top to bottom) satisfies
`0 < crossProduct a b c`. -/
def stackOK : List Vector2 → Prop
  | c :: b :: a :: rest => 0 < crossProduct a b c ∧ stackOK (b :: a :: rest)
  | _ => True

/-- A flat, axis-aligned unit square at height 0 together with a fifth
point whose horizontal projection duplicates the first point's quantized
key but whose vertical coordinate is -100. -/
def ptsDup : List ℝ := [0, 0, 0, 1, 0, 0, 1, 0, 1, 0, 0, 1, 0, -100, 0]

/-- The centered square corners produced by deduplicating `ptsDup`. -/
def aSq : Vector2 := ⟨-(2 / 5), -(2 / 5)⟩

/-- Second corner of the centered square. -/
def bSq : Vector2 := ⟨3 / 5, -(2 / 5)⟩

/-- Third corner of the centered square. -/
def cSq : Vector2 := ⟨3 / 5, 3 / 5⟩

/-- Fourth corner of the centered square. -/
def dSq : Vector2 := ⟨-(2 / 5), 3 / 5⟩

/-- Pivot of the tie counterexample. -/
def pG : Vector2 := ⟨0, 0⟩

/-- A true hull vertex whose polar angle around the pivot is below the
`1e-10` tie tolerance. -/
def bG : Vector2 := ⟨2, 2 / 10000000000⟩

/-- The far point on the pivot's horizontal ray. -/
def aG : Vector2 := ⟨10, 0⟩

/-- First vertex of the counterexample quadrilateral (input order starts
here so that the bottom edge toward `cQ` is encountered first). -/
def bQ : Vector2 := ⟨2, -(1 / 100000)⟩

/-- Second vertex: the long bottom edge `bQ → cQ` is horizontal. -/
def cQ : Vector2 := ⟨5, -(1 / 100000)⟩

/-- Third vertex (the apex). -/
def dQ : Vector2 := ⟨1, 1⟩

/-- Fourth vertex: the closing edge `aQ → bQ` has direction `(2, -1e-5)`,
within the `1 - 1e-10` dot tolerance of the first direction `(1, 0)`. -/
def aQ : Vector2 := ⟨0, 0⟩

/-- Squared length of the edge `cQ → dQ`: `16 + (1 + 1e-5)^2`. -/
def s1Q : ℝ := 170000200001 / 10000000000

/-- Squared length of the edge `aQ → bQ`: `4 + 1e-10`. -/
def s3Q : ℝ := 40000000001 / 10000000000

/-- Normalized direction of the edge `cQ → dQ`. -/
def u1Q : Vector2 := ⟨-4 / Real.sqrt s1Q, (1 + 1 / 100000) / Real.sqrt s1Q⟩

/-- Normalized direction of the edge `dQ → aQ`. -/
def u2Q : Vector2 := ⟨-1 / Real.sqrt 2, -1 / Real.sqrt 2⟩

/-- Normalized direction of the closing edge `aQ → bQ`. -/
def u3Q : Vector2 := ⟨2 / Real.sqrt s3Q, -(1 / 100000) / Real.sqrt s3Q⟩

/-! ### General lemmas about the embedded operations -/

theorem foldl_min_le (a : ℝ) (l : List ℝ) : l.foldl min a ≤ a := by
  induction l generalizing a with
  | nil => exact le_refl a
  | cons b l ih => exact le_trans (ih (min a b)) (min_le_left a b)

theorem le_foldl_max (a : ℝ) (l : List ℝ) : a ≤ l.foldl max a := by
  induction l generalizing a with
  | nil => exact le_refl a
  | cons b l ih => exact le_trans (le_max_left a b) (ih (max a b))

theorem listMin_le_listMax (l : List ℝ) : listMin l ≤ listMax l := by
  cases l with
  | nil => exact le_refl 0
  | cons a l => exact le_trans (foldl_min_le a l) (le_foldl_max a l)

theorem foldl_min_le_mem (a x : ℝ) (l : List ℝ) (hx : x ∈ l) : l.foldl min a ≤ x := by
  induction l generalizing a with
  | nil => cases hx
  | cons b l ih =>
    rcases List.mem_cons.mp hx with h | h
    · subst h
      exact le_trans (foldl_min_le (min a x) l) (min_le_right a x)
    · exact ih (min a b) h

theorem mem_le_foldl_max (a x : ℝ) (l : List ℝ) (hx : x ∈ l) : x ≤ l.foldl max a := by
  induction l generalizing a with
  | nil => cases hx
  | cons b l ih =>
    rcases List.mem_cons.mp hx with h | h
    · subst h
      exact le_trans (le_max_right a x) (le_foldl_max (max a x) l)
    · exact ih (max a b) h

theorem listMin_le_of_mem {x : ℝ} {l : List ℝ} (hx : x ∈ l) : listMin l ≤ x := by
  cases l with
  | nil => cases hx
  | cons a l =>
    rcases List.mem_cons.mp hx with h | h
    · subst h; exact foldl_min_le x l
    · exact foldl_min_le_mem a x l h

theorem le_listMax_of_mem {x : ℝ} {l : List ℝ} (hx : x ∈ l) : x ≤ listMax l := by
  cases l with
  | nil => cases hx
  | cons a l =>
    rcases List.mem_cons.mp hx with h | h
    · subst h; exact le_foldl_max x l
    · exact mem_le_foldl_max a x l h

/-- Width and height of every per-direction candidate are nonnegative. -/
theorem candidateFor_nonneg (hull : List Vector2) (d : Vector2) :
    0 ≤ (candidateFor hull d).width ∧ 0 ≤ (candidateFor hull d).height := by
  constructor <;>
    simpa [candidateFor, getExtremeProjections, sub_nonneg] using listMin_le_listMax _

theorem foldl_calipersStep_some (hull : List Vector2) (b0 : CandidateRect)
    (ds : List Vector2) :
    ds.foldl (calipersStep hull) (some b0) = some (bestOf hull b0 ds) := by
  induction ds generalizing b0 with
  | nil => rfl
  | cons d ds ih =>
    show ds.foldl (calipersStep hull) (calipersStep hull (some b0) d) = _
    rw [bestOf]
    by_cases h :
        (candidateFor hull d).width * (candidateFor hull d).height < b0.width * b0.height
    · rw [show calipersStep hull (some b0) d = some (candidateFor hull d) by
        simp [calipersStep, if_pos h], ih, if_pos h]
    · rw [show calipersStep hull (some b0) d = some b0 by
        simp [calipersStep, if_neg h], ih, if_neg h]

theorem bestOf_le_seed (hull : List Vector2) (b0 : CandidateRect) (ds : List Vector2) :
    (bestOf hull b0 ds).width * (bestOf hull b0 ds).height ≤ b0.width * b0.height := by
  induction ds generalizing b0 with
  | nil => exact le_refl _
  | cons d ds ih =>
    rw [bestOf]
    by_cases h :
        (candidateFor hull d).width * (candidateFor hull d).height < b0.width * b0.height
    · rw [if_pos h]; exact le_trans (ih _) (le_of_lt h)
    · rw [if_neg h]; exact ih b0

theorem bestOf_le_mem (hull : List Vector2) (b0 : CandidateRect) (ds : List Vector2)
    (d : Vector2) (hd : d ∈ ds) :
    (bestOf hull b0 ds).width * (bestOf hull b0 ds).height ≤
      (candidateFor hull d).width * (candidateFor hull d).height := by
  induction ds generalizing b0 with
  | nil => cases hd
  | cons e ds ih =>
    rw [bestOf]
    rcases List.mem_cons.mp hd with h | h
    · subst h
      by_cases hlt :
          (candidateFor hull d).width * (candidateFor hull d).height < b0.width * b0.height
      · rw [if_pos hlt]; exact bestOf_le_seed hull _ ds
      · rw [if_neg hlt]
        exact le_trans (bestOf_le_seed hull b0 ds) (le_of_not_lt hlt)
    · by_cases hlt :
          (candidateFor hull e).width * (candidateFor hull e).height < b0.width * b0.height
      · rw [if_pos hlt]; exact ih _ h
      · rw [if_neg hlt]; exact ih _ h

/-- First-wins characterization of the running best: either the seed
survives, or the result is the candidate of some direction in the list,
strictly better than the seed and than every earlier direction. -/
theorem bestOf_firstWins (hull : List Vector2) (ds : List Vector2) (b0 : CandidateRect) :
    bestOf hull b0 ds = b0 ∨
      ∃ i, ∃ h : i < ds.length,
        bestOf hull b0 ds = candidateFor hull (ds.get ⟨i, h⟩) ∧
        (bestOf hull b0 ds).width * (bestOf hull b0 ds).height < b0.width * b0.height ∧
        ∀ j, ∀ hj : j < i,
          (bestOf hull b0 ds).width * (bestOf hull b0 ds).height <
            (candidateFor hull (ds.get ⟨j, lt_trans hj h⟩)).width *
              (candidateFor hull (ds.get ⟨j, lt_trans hj h⟩)).height := by
  induction ds generalizing b0 with
  | nil => exact Or.inl rfl
  | cons d ds ih =>
    rw [bestOf]
    by_cases hlt :
        (candidateFor hull d).width * (candidateFor hull d).height < b0.width * b0.height
    · rw [if_pos hlt]
      rcases ih (candidateFor hull d) with h | ⟨i, hi, heq, hstrict, hearlier⟩
      · right
        refine ⟨0, Nat.succ_pos _, ?_, ?_, ?_⟩
        · simpa using h
        · rw [h]; exact hlt
        · intro j hj; cases hj
      · right
        refine ⟨i + 1, Nat.succ_lt_succ hi, ?_, lt_trans hstrict hlt, ?_⟩
        · simpa using heq
        · intro j hj
          cases j with
          | zero => simpa using hstrict
          | succ k =>
            have hk : k < i := Nat.lt_of_succ_lt_succ hj
            simpa using hearlier k hk
    · rw [if_neg hlt]
      rcases ih b0 with h | ⟨i, hi, heq, hstrict, hearlier⟩
      · exact Or.inl h
      · right
        refine ⟨i + 1, Nat.succ_lt_succ hi, ?_, hstrict, ?_⟩
        · simpa using heq
        · intro j hj
          cases j with
          | zero =>
            simpa using lt_of_lt_of_le hstrict (le_of_not_lt hlt)
          | succ k =>
            have hk : k < i := Nat.lt_of_succ_lt_succ hj
            simpa using hearlier k hk

/-- The direction list of a nonempty hull is nonempty (the first edge is
always kept). -/
theorem foldl_ne_nil_preserve {α : Type} (f : List Vector2 → α → List Vector2)
    (hf : ∀ acc i, acc ≠ [] → f acc i ≠ []) :
    ∀ (is : List α) (acc : List Vector2), acc ≠ [] → is.foldl f acc ≠ [] := by
  intro is
  induction is with
  | nil => intro acc hacc; exact hacc
  | cons i is ih => intro acc hacc; exact ih (f acc i) (hf acc i hacc)

theorem getUniqueEdgeDirections_ne_nil (hull : List Vector2) (h : hull ≠ []) :
    getUniqueEdgeDirections hull ≠ [] := by
  classical
  have hlen : hull.length ≠ 0 := fun h0 => h (List.length_eq_zero.mp h0)
  have hr : ∃ t, List.range hull.length = 0 :: t := by
    rcases Nat.exists_eq_succ_of_ne_zero hlen with ⟨n, hn⟩
    exact ⟨List.map Nat.succ (List.range n), by rw [hn, List.range_succ_eq_map]⟩
  rcases hr with ⟨t, ht⟩
  rw [getUniqueEdgeDirections, ht]
  rw [List.foldl_cons]
  refine foldl_ne_nil_preserve _ ?_ t _ ?_
  · intro acc i hacc
    rw [uniqueDirStep]
    split
    · exact hacc
    · simp
  · rw [uniqueDirStep]
    split
    · next hc => rcases hc with ⟨dir, hdir, _⟩; cases hdir
    · simp

/-! ### The scan stack invariant -/

theorem stackOK_tail {x : Vector2} {s : List Vector2} (h : stackOK (x :: s)) :
    stackOK s := by
  cases s with
  | nil => trivial
  | cons b s2 =>
    cases s2 with
    | nil => trivial
    | cons a rest => exact h.2

theorem stackOK_popWhile (p : Vector2) : ∀ s, stackOK s → stackOK (popWhile s p) := by
  intro s
  induction s with
  | nil => intro h; exact h
  | cons b s ih =>
    cases s with
    | nil => intro h; exact h
    | cons a rest =>
      intro h
      simp only [popWhile]
      split
      · exact ih (stackOK_tail h)
      · exact h

theorem popWhile_exit (p : Vector2) :
    ∀ s b a rest, popWhile s p = b :: a :: rest → ¬crossProduct a b p ≤ 0 := by
  intro s
  induction s with
  | nil => intro b a rest h; simp [popWhile] at h
  | cons x s ih =>
    cases s with
    | nil => intro b a rest h; simp [popWhile] at h
    | cons y t =>
      intro b a rest h
      simp only [popWhile] at h
      by_cases hc : crossProduct y x p ≤ 0
      · rw [if_pos hc] at h
        exact ih b a rest h
      · rw [if_neg hc] at h
        cases h
        exact hc

theorem stackOK_push (st : List Vector2) (p : Vector2) (h : stackOK st) :
    stackOK (p :: popWhile st p) := by
  rcases hres : popWhile st p with _ | ⟨b, tl⟩
  · trivial
  · rcases tl with _ | ⟨a, rest⟩
    · trivial
    · refine ⟨lt_of_not_le (popWhile_exit p st b a rest hres), ?_⟩
      rw [← hres]
      exact stackOK_popWhile p st h

theorem stackOK_scanFold (rest : List Vector2) :
    ∀ st, stackOK st →
      stackOK (rest.foldl (fun stack p => p :: popWhile stack p) st) := by
  induction rest with
  | nil => intro st h; exact h
  | cons p rest ih => intro st h; exact ih _ (stackOK_push st p h)

theorem chain3Pos_snoc : ∀ (l : List Vector2) (c : Vector2), chain3Pos l →
    (∀ t a b, l = t ++ [a, b] → 0 < crossProduct a b c) → chain3Pos (l ++ [c]) := by
  intro l
  induction l with
  | nil => intro c _ _; trivial
  | cons x l ih =>
    intro c hch hend
    cases l with
    | nil => trivial
    | cons y l2 =>
      cases l2 with
      | nil => exact ⟨hend [] x y rfl, trivial⟩
      | cons z l3 =>
        refine ⟨hch.1, ?_⟩
        refine ih c hch.2 ?_
        intro t a b hteq
        exact hend (x :: t) a b (by rw [hteq]; rfl)

theorem stackOK_reverse_chain : ∀ s, stackOK s → chain3Pos s.reverse := by
  intro s
  induction s with
  | nil => intro _; trivial
  | cons x s ih =>
    intro h
    rw [List.reverse_cons]
    refine chain3Pos_snoc _ x (ih (stackOK_tail h)) ?_
    intro t a b hteq
    have hs : s = b :: a :: t.reverse := by
      have h2 := congrArg List.reverse hteq
      simpa using h2
    rw [hs] at h
    exact h.1

theorem chain3Pos_scanStack (p0 : Vector2) (l : List Vector2) :
    chain3Pos (scanStack p0 l) := by
  cases l with
  | nil => trivial
  | cons p1 rest => exact stackOK_reverse_chain _ (stackOK_scanFold rest [p1, p0] trivial)

theorem chain3Pos_short (l : List Vector2) (h : l.length < 3) : chain3Pos l := by
  match l, h with
  | [], _ => trivial
  | [a], _ => trivial
  | [a, b], _ => trivial

/-- Nonnegativity of the running best's sides. -/
theorem bestOf_nonneg (hull : List Vector2) (b0 : CandidateRect) (ds : List Vector2)
    (h : 0 ≤ b0.width ∧ 0 ≤ b0.height) :
    0 ≤ (bestOf hull b0 ds).width ∧ 0 ≤ (bestOf hull b0 ds).height := by
  induction ds generalizing b0 with
  | nil => exact h
  | cons d ds ih =>
    rw [bestOf]
    split
    · exact ih _ (candidateFor_nonneg hull d)
    · exact ih _ h

theorem calipers_nonneg (hull : List Vector2) :
    0 ≤ (enhancedRotatingCalipers hull).width ∧
      0 ≤ (enhancedRotatingCalipers hull).height := by
  rw [enhancedRotatingCalipers]
  split
  · simp [zeroRect]
  · rcases hd : getUniqueEdgeDirections hull with _ | ⟨d, ds⟩
    · simp [zeroRect]
    · rw [List.foldl_cons,
        show calipersStep hull none d = some (candidateFor hull d) from rfl,
        foldl_calipersStep_some]
      exact bestOf_nonneg hull _ ds (candidateFor_nonneg hull d)

/-- Shared guard lemma: both warning paths of `fromPoints` return the
receiver unchanged. -/
theorem fromPoints_guard (m : MinimumBoundingRectangle) (points : List ℝ)
    (h : points.length < 9 ∨ (points2D points).length < 3) :
    fromPoints m points = m := by
  rw [fromPoints]
  by_cases h9 : points.length < 9
  · rw [if_pos h9]
  · rw [if_neg h9, if_pos (h.resolve_left h9)]

/-! ### Claim theorems -/

/-- C8: the kernel is deterministic: `fromPoints` and `grahamScan` are
functions of their inputs, so two invocations on identical receiver/input
produce identical `MinimumBoundingRectangle` states and identical hull
vertex sequences (not merely the same polygon).  The embedding fixes the
sources of implementation nondeterminism deterministically: `Map` iteration
follows insertion order as ECMAScript specifies, and the sort is a stable
sort with the source's comparator. -/
theorem C8_deterministic (m1 : MinimumBoundingRectangle) (p1 : List ℝ)
    (m2 : MinimumBoundingRectangle) (p2 : List ℝ) (l1 l2 : List Vector2)
    (hm : m1 = m2) (hp : p1 = p2) (hl : l1 = l2) :
    fromPoints m1 p1 = fromPoints m2 p2 ∧ grahamScan l1 = grahamScan l2 := by
  subst hm; subst hp; subst hl; exact ⟨rfl, rfl⟩

/-- Closed witness for `C8_deterministic`. -/
theorem C8_deterministic_witness :
    fromPoints mbrInit [] = fromPoints mbrInit [] ∧ grahamScan [] = grahamScan [] :=
  C8_deterministic mbrInit [] mbrInit [] [] [] rfl rfl rfl

/-- C5: on every non-degenerate input (both guards pass), the resulting
`OrientedBox` is assembled from the winning candidate rectangle, the
vertical extent and the centroid exactly as the specification states:
`center = (candidate.center.x + centroidX, (minY+maxY)/2,
candidate.center.y + centroidZ)`, `halfSizes = (width/2, (maxY-minY)/2,
height/2)`, `rotation = makeRotationY (-angle)`. -/
theorem C5_box_reconstruction (m : MinimumBoundingRectangle) (points : List ℝ)
    (h9 : ¬points.length < 9) (h3 : ¬(points2D points).length < 3) :
    fromPoints m points =
      { center := ⟨(enhancedRotatingCalipers (grahamScan (points2D points))).center.x +
                     centroidX points,
                   (mbrMinY points + mbrMaxY points) * 0.5,
                   (enhancedRotatingCalipers (grahamScan (points2D points))).center.y +
                     centroidZ points⟩
        halfSizes := ⟨(enhancedRotatingCalipers (grahamScan (points2D points))).width * 0.5,
                      (mbrMaxY points - mbrMinY points) * 0.5,
                      (enhancedRotatingCalipers (grahamScan (points2D points))).height * 0.5⟩
        rotation :=
          makeRotationY (-(enhancedRotatingCalipers (grahamScan (points2D points))).angle) } := by
  rw [fromPoints, if_neg h9, if_neg h3]

/-- C6: `fromPoints` is a total function of its input (the embedding
returns a value on every input, mirroring that the source never throws),
and on a freshly constructed receiver both degenerate paths (fewer than 9
scalar values; fewer than 3 unique deduplicated points) return the
zero-sized box: zero center, zero half-sizes, identity rotation. -/
theorem C6_degenerate_inputs_zero_box (points : List ℝ)
    (h : points.length < 9 ∨ (points2D points).length < 3) :
    fromPoints mbrInit points = mbrInit ∧
      (fromPoints mbrInit points).halfSizes = ⟨0, 0, 0⟩ := by
  refine ⟨fromPoints_guard mbrInit points h, ?_⟩
  rw [fromPoints_guard mbrInit points h]
  rfl

/-- Closed witness for `C6_degenerate_inputs_zero_box`. -/
theorem C6_degenerate_inputs_zero_box_witness :
    ([] : List ℝ).length < 9 ∧
      (fromPoints mbrInit [] = mbrInit ∧ (fromPoints mbrInit []).halfSizes = ⟨0, 0, 0⟩) :=
  ⟨by norm_num, C6_degenerate_inputs_zero_box [] (Or.inl (by norm_num))⟩

/-- C10: on both error paths (fewer than 9 scalar values, or fewer than 3
unique deduplicated points) `fromPoints` returns the receiver without
writing `center`, `halfSizes` or `rotation`: every field keeps exactly its
previous value, so a reused instance retains the box of its previous
successful call. -/
theorem C10_error_paths_preserve_receiver (m : MinimumBoundingRectangle)
    (points : List ℝ) (h : points.length < 9 ∨ (points2D points).length < 3) :
    fromPoints m points = m :=
  fromPoints_guard m points h

/-- Closed witness for `C10_error_paths_preserve_receiver`: a receiver
holding a nonzero box from a previous call keeps it. -/
theorem C10_error_paths_preserve_receiver_witness :
    ([] : List ℝ).length < 9 ∧
      fromPoints ⟨⟨5, 6, 7⟩, ⟨1, 2, 3⟩, identity4⟩ [] = ⟨⟨5, 6, 7⟩, ⟨1, 2, 3⟩, identity4⟩ :=
  ⟨by norm_num,
    C10_error_paths_preserve_receiver ⟨⟨5, 6, 7⟩, ⟨1, 2, 3⟩, identity4⟩ []
      (Or.inl (by norm_num))⟩

/-- C7: for every box state, `toBox3` computes exactly the componentwise
min/max over the 8 corner points obtained by rotating the 8 local-frame
offsets `±halfSizes` and translating by the center. -/
theorem C7_toBox3_minmax_over_corners (m : MinimumBoundingRectangle) :
    (toBox3 m).lo.x = listMin ((orientedCorners m).map fun v => v.x) ∧
    (toBox3 m).lo.y = listMin ((orientedCorners m).map fun v => v.y) ∧
    (toBox3 m).lo.z = listMin ((orientedCorners m).map fun v => v.z) ∧
    (toBox3 m).hi.x = listMax ((orientedCorners m).map fun v => v.x) ∧
    (toBox3 m).hi.y = listMax ((orientedCorners m).map fun v => v.y) ∧
    (toBox3 m).hi.z = listMax ((orientedCorners m).map fun v => v.z) := by
  exact ⟨rfl, rfl, rfl, rfl, rfl, rfl⟩

/-- C9 (amended): after every call, all three `halfSizes` components are
nonnegative, provided the receiver's were (in particular for a fresh
receiver); components can be zero also on non-degenerate input (see the
counterexample: a coplanar horizontal input yields vertical half-size 0). -/
theorem C9_amended_halfSizes_nonneg (m : MinimumBoundingRectangle) (points : List ℝ)
    (hx : 0 ≤ m.halfSizes.x) (hy : 0 ≤ m.halfSizes.y) (hz : 0 ≤ m.halfSizes.z) :
    0 ≤ (fromPoints m points).halfSizes.x ∧
      0 ≤ (fromPoints m points).halfSizes.y ∧
      0 ≤ (fromPoints m points).halfSizes.z := by
  rw [fromPoints]
  by_cases h9 : points.length < 9
  · rw [if_pos h9]; exact ⟨hx, hy, hz⟩
  · rw [if_neg h9]
    by_cases h3 : (points2D points).length < 3
    · rw [if_pos h3]; exact ⟨hx, hy, hz⟩
    · rw [if_neg h3]
      refine ⟨?_, ?_, ?_⟩
      · exact mul_nonneg (calipers_nonneg _).1 (by norm_num)
      · refine mul_nonneg ?_ (by norm_num)
        exact sub_nonneg.mpr (listMin_le_listMax (keptYs points))
      · exact mul_nonneg (calipers_nonneg _).2 (by norm_num)

/-- Closed witness for `C9_amended_halfSizes_nonneg`. -/
theorem C9_amended_halfSizes_nonneg_witness :
    (0 : ℝ) ≤ mbrInit.halfSizes.x ∧
      (0 ≤ (fromPoints mbrInit []).halfSizes.x ∧
        0 ≤ (fromPoints mbrInit []).halfSizes.y ∧
        0 ≤ (fromPoints mbrInit []).halfSizes.z) :=
  ⟨le_refl 0,
    C9_amended_halfSizes_nonneg mbrInit [] (le_refl 0) (le_refl 0) (le_refl 0)⟩

/-- C4 (amended): for every input point list, every three consecutive
vertices of the sequence returned by `grahamScan` form a strict left turn
(`crossProduct > 0`).  The cyclic (wraparound) triples and a ≥ 3 vertex
guarantee do not hold in general: the polar-angle tie tolerance of `1e-10`
can drop true hull vertices (see the counterexample). -/
theorem C4_amended_consecutive_left_turns (points : List Vector2) :
    chain3Pos (grahamScan points) := by
  rw [grahamScan.eq_def]
  by_cases h3 : points.length < 3
  · rw [if_pos h3]; exact chain3Pos_short points h3
  · rw [if_neg h3]; exact chain3Pos_scanStack _ _

/-! ### Concrete inputs used as evidence -/

theorem toTriples_ptsDup :
    toTriples ptsDup = [(0, 0, 0), (1, 0, 0), (1, 0, 1), (0, 0, 1), (0, -100, 0)] := by
  norm_num [ptsDup, toTriples]

theorem centroidX_ptsDup : centroidX ptsDup = 2 / 5 := by
  rw [centroidX, toTriples_ptsDup]
  norm_num [ptsDup]

theorem centroidZ_ptsDup : centroidZ ptsDup = 2 / 5 := by
  rw [centroidZ, toTriples_ptsDup]
  norm_num [ptsDup]

theorem keptTriples_ptsDup :
    keptTriples ptsDup =
      [(-(2 / 5), 0, -(2 / 5)), (3 / 5, 0, -(2 / 5)), (3 / 5, 0, 3 / 5),
        (-(2 / 5), 0, 3 / 5)] := by
  rw [keptTriples, centroidX_ptsDup, centroidZ_ptsDup, toTriples_ptsDup]
  norm_num [uniqueScan, epsDedup, round_eq, List.mem_cons, Prod.mk.injEq]

theorem points2D_ptsDup : points2D ptsDup = [aSq, bSq, cSq, dSq] := by
  rw [points2D, keptTriples_ptsDup]
  rfl

theorem keptYs_ptsDup : keptYs ptsDup = [0, 0, 0, 0] := by
  rw [keptYs, keptTriples_ptsDup]
  rfl

theorem mbrMinY_ptsDup : mbrMinY ptsDup = 0 := by
  rw [mbrMinY, keptYs_ptsDup, listMin]
  norm_num

theorem mbrMaxY_ptsDup : mbrMaxY ptsDup = 0 := by
  rw [mbrMaxY, keptYs_ptsDup, listMax]
  norm_num

/-! ### Graham scan evaluated on the centered square -/

theorem atan2_zero_one : atan2 0 1 = 0 := by
  norm_num [atan2, Real.arctan_zero]

theorem atan2_one_one : atan2 1 1 = Real.pi / 4 := by
  norm_num [atan2, Real.arctan_one]

theorem atan2_one_zero : atan2 1 0 = Real.pi / 2 := by
  norm_num [atan2]

theorem angle_ab : angleAround aSq bSq = 0 := by
  have h : angleAround aSq bSq = atan2 0 1 := by
    rw [angleAround, aSq, bSq]
    norm_num
  rw [h, atan2_zero_one]

theorem angle_ac : angleAround aSq cSq = Real.pi / 4 := by
  have h : angleAround aSq cSq = atan2 1 1 := by
    rw [angleAround, aSq, cSq]
    norm_num
  rw [h, atan2_one_one]

theorem angle_ad : angleAround aSq dSq = Real.pi / 2 := by
  have h : angleAround aSq dSq = atan2 1 0 := by
    rw [angleAround, aSq, dSq]
    norm_num
  rw [h, atan2_one_zero]

theorem cmp_cd : polarCompare aSq cSq dSq ≤ 0 := by
  have hπ := Real.pi_gt_three
  have hne : ¬|angleAround aSq cSq - angleAround aSq dSq| < epsDir := by
    rw [angle_ac, angle_ad, abs_of_nonpos (by linarith), epsDir]
    intro hcon
    linarith
  rw [polarCompare, if_neg hne, angle_ac, angle_ad]
  linarith

theorem cmp_bc : polarCompare aSq bSq cSq ≤ 0 := by
  have hπ := Real.pi_gt_three
  have hne : ¬|angleAround aSq bSq - angleAround aSq cSq| < epsDir := by
    rw [angle_ab, angle_ac, abs_of_nonpos (by linarith), epsDir]
    intro hcon
    linarith
  rw [polarCompare, if_neg hne, angle_ab, angle_ac]
  linarith

theorem sort_sq : sortByAngle aSq [bSq, cSq, dSq] = [bSq, cSq, dSq] := by
  rw [sortByAngle]
  simp only [List.insertionSort, List.orderedInsert]
  rw [if_pos cmp_cd]
  simp only [List.orderedInsert]
  rw [if_pos cmp_bc]

theorem bottom_sq : bottomAux aSq 0 1 [bSq, cSq, dSq] = (aSq, 0) := by
  norm_num [bottomAux, aSq, bSq, cSq, dSq]

theorem hull_ptsDup : grahamScan (points2D ptsDup) = [aSq, bSq, cSq, dSq] := by
  rw [points2D_ptsDup, grahamScan.eq_def, if_neg (by norm_num)]
  show scanStack (bottomAux aSq 0 1 [bSq, cSq, dSq]).1
      (sortByAngle (bottomAux aSq 0 1 [bSq, cSq, dSq]).1
        ([aSq, bSq, cSq, dSq].eraseIdx (bottomAux aSq 0 1 [bSq, cSq, dSq]).2)) = _
  rw [bottom_sq]
  show scanStack aSq (sortByAngle aSq [bSq, cSq, dSq]) = _
  rw [sort_sq, scanStack]
  simp only [List.foldl_cons, List.foldl_nil]
  rw [show popWhile [bSq, aSq] cSq = [bSq, aSq] from by
    rw [popWhile, if_neg (by norm_num [crossProduct, aSq, bSq, cSq])]]
  rw [show popWhile [cSq, bSq, aSq] dSq = [cSq, bSq, aSq] from by
    rw [popWhile, if_neg (by norm_num [crossProduct, aSq, bSq, cSq, dSq])]]
  simp

/-! ### Rotating calipers evaluated on the square hull -/

theorem normalize_unit (v : Vector2) (h : v.x * v.x + v.y * v.y = 1) :
    normalize v = v := by
  have hlen : v.len = 1 := by rw [Vector2.len, h, Real.sqrt_one]
  rw [normalize, hlen]
  norm_num

theorem dirs_sq :
    getUniqueEdgeDirections [aSq, bSq, cSq, dSq] = [⟨1, 0⟩, ⟨0, 1⟩, ⟨-1, 0⟩, ⟨0, -1⟩] := by
  have n1 : normalize ⟨1, 0⟩ = ⟨1, 0⟩ := normalize_unit _ (by norm_num)
  have n2 : normalize ⟨0, 1⟩ = ⟨0, 1⟩ := normalize_unit _ (by norm_num)
  have n3 : normalize ⟨-1, 0⟩ = ⟨-1, 0⟩ := normalize_unit _ (by norm_num)
  have n4 : normalize ⟨0, -1⟩ = ⟨0, -1⟩ := normalize_unit _ (by norm_num)
  have s0 : uniqueDirStep [aSq, bSq, cSq, dSq] [] 0 = [⟨1, 0⟩] := by
    rw [uniqueDirStep]
    norm_num [aSq, bSq, List.getD_cons_zero, List.getD_cons_succ, n1]
  have s1 : uniqueDirStep [aSq, bSq, cSq, dSq] [⟨1, 0⟩] 1 = [⟨1, 0⟩, ⟨0, 1⟩] := by
    rw [uniqueDirStep]
    norm_num [bSq, cSq, List.getD_cons_zero, List.getD_cons_succ, n2, Vector2.dot, epsDir]
  have s2 : uniqueDirStep [aSq, bSq, cSq, dSq] [⟨1, 0⟩, ⟨0, 1⟩] 2 =
      [⟨1, 0⟩, ⟨0, 1⟩, ⟨-1, 0⟩] := by
    rw [uniqueDirStep]
    norm_num [cSq, dSq, List.getD_cons_zero, List.getD_cons_succ, n3, Vector2.dot, epsDir]
  have s3 : uniqueDirStep [aSq, bSq, cSq, dSq] [⟨1, 0⟩, ⟨0, 1⟩, ⟨-1, 0⟩] 3 =
      [⟨1, 0⟩, ⟨0, 1⟩, ⟨-1, 0⟩, ⟨0, -1⟩] := by
    rw [uniqueDirStep]
    norm_num [dSq, aSq, List.getD_cons_zero, List.getD_cons_succ, n4, Vector2.dot, epsDir]
  rw [getUniqueEdgeDirections,
    show ([aSq, bSq, cSq, dSq] : List Vector2).length = 4 from rfl,
    show List.range 4 = [0, 1, 2, 3] from rfl]
  simp only [List.foldl_cons, List.foldl_nil]
  rw [s0, s1, s2, s3]

theorem cand_sq_d1 :
    candidateFor [aSq, bSq, cSq, dSq] ⟨1, 0⟩ = ⟨⟨1 / 10, 1 / 10⟩, 1, 1, 0⟩ := by
  rw [candidateFor]
  norm_num [getExtremeProjections, Vector2.dot, aSq, bSq, cSq, dSq, listMin, listMax,
    min_def, max_def, atan2_zero_one, CandidateRect.mk.injEq, Vector2.mk.injEq]

theorem cand_sq_d2_wh :
    (candidateFor [aSq, bSq, cSq, dSq] ⟨0, 1⟩).width = 1 ∧
      (candidateFor [aSq, bSq, cSq, dSq] ⟨0, 1⟩).height = 1 := by
  rw [candidateFor]
  constructor <;>
    norm_num [getExtremeProjections, Vector2.dot, aSq, bSq, cSq, dSq, listMin, listMax,
      min_def, max_def]

theorem cand_sq_d3_wh :
    (candidateFor [aSq, bSq, cSq, dSq] ⟨-1, 0⟩).width = 1 ∧
      (candidateFor [aSq, bSq, cSq, dSq] ⟨-1, 0⟩).height = 1 := by
  rw [candidateFor]
  constructor <;>
    norm_num [getExtremeProjections, Vector2.dot, aSq, bSq, cSq, dSq, listMin, listMax,
      min_def, max_def]

theorem cand_sq_d4_wh :
    (candidateFor [aSq, bSq, cSq, dSq] ⟨0, -1⟩).width = 1 ∧
      (candidateFor [aSq, bSq, cSq, dSq] ⟨0, -1⟩).height = 1 := by
  rw [candidateFor]
  constructor <;>
    norm_num [getExtremeProjections, Vector2.dot, aSq, bSq, cSq, dSq, listMin, listMax,
      min_def, max_def]

theorem calipers_sq :
    enhancedRotatingCalipers [aSq, bSq, cSq, dSq] = ⟨⟨1 / 10, 1 / 10⟩, 1, 1, 0⟩ := by
  rw [enhancedRotatingCalipers, if_neg (by norm_num), dirs_sq]
  simp only [List.foldl_cons, List.foldl_nil]
  rw [show calipersStep [aSq, bSq, cSq, dSq] none ⟨1, 0⟩ =
      some (candidateFor [aSq, bSq, cSq, dSq] ⟨1, 0⟩) from rfl, cand_sq_d1]
  rw [show calipersStep [aSq, bSq, cSq, dSq] (some ⟨⟨1 / 10, 1 / 10⟩, 1, 1, 0⟩) ⟨0, 1⟩ =
      some ⟨⟨1 / 10, 1 / 10⟩, 1, 1, 0⟩ from by
    rw [calipersStep]
    rw [if_neg (by rw [cand_sq_d2_wh.1, cand_sq_d2_wh.2]; norm_num)]]
  rw [show calipersStep [aSq, bSq, cSq, dSq] (some ⟨⟨1 / 10, 1 / 10⟩, 1, 1, 0⟩) ⟨-1, 0⟩ =
      some ⟨⟨1 / 10, 1 / 10⟩, 1, 1, 0⟩ from by
    rw [calipersStep]
    rw [if_neg (by rw [cand_sq_d3_wh.1, cand_sq_d3_wh.2]; norm_num)]]
  rw [show calipersStep [aSq, bSq, cSq, dSq] (some ⟨⟨1 / 10, 1 / 10⟩, 1, 1, 0⟩) ⟨0, -1⟩ =
      some ⟨⟨1 / 10, 1 / 10⟩, 1, 1, 0⟩ from by
    rw [calipersStep]
    rw [if_neg (by rw [cand_sq_d4_wh.1, cand_sq_d4_wh.2]; norm_num)]]

theorem fromPoints_ptsDup :
    fromPoints mbrInit ptsDup =
      ⟨⟨1 / 2, 0, 1 / 2⟩, ⟨1 / 2, 0, 1 / 2⟩, identity4⟩ := by
  rw [fromPoints, if_neg (by norm_num [ptsDup]),
    if_neg (by rw [points2D_ptsDup]; norm_num)]
  simp only [hull_ptsDup, calipers_sq, centroidX_ptsDup, centroidZ_ptsDup,
    mbrMinY_ptsDup, mbrMaxY_ptsDup]
  norm_num [MinimumBoundingRectangle.mk.injEq, Vector3.mk.injEq, makeRotationY,
    identity4, Real.cos_zero, Real.sin_zero, Matrix4.mk.injEq]

theorem not_collinear_sq : ¬collinearPts (points2D ptsDup) := by
  intro h
  have h1 := h aSq (by rw [points2D_ptsDup]; simp) bSq (by rw [points2D_ptsDup]; simp)
    cSq (by rw [points2D_ptsDup]; simp)
  rw [crossProduct, aSq, bSq, cSq] at h1
  norm_num at h1

/-- C3: the claim states that `minY`/`maxY` range over all pre-deduplication
input points; the code updates them only for first-occurrence (unique-key)
triples.  On `ptsDup` the fifth triple `(0, -100, 0)` shares its quantized
horizontal key with the first, so the code computes `minY = 0`, while the
minimum second coordinate over all supplied triples is `-100`. -/
theorem C3_vertical_extent_ignores_duplicate_key_points :
    mbrMinY ptsDup = 0 ∧
      listMin ((toTriples ptsDup).map fun t => t.2.1) = -100 := by
  refine ⟨mbrMinY_ptsDup, ?_⟩
  rw [toTriples_ptsDup]
  norm_num [listMin, min_def]

/-- C2: containment fails far beyond numerical tolerance.  `ptsDup` has 4
unique, non-collinear horizontal projections, and `(0, -100, 0)` is one of
its input points, yet that point's local vertical offset from the computed
box exceeds the vertical half-size by 100 (the box has `halfSizes.y = 0`
because the duplicate-key point's `y` never reaches the extent fold). -/
theorem C2_containment_fails_on_duplicate_key_point :
    3 ≤ (points2D ptsDup).length ∧
      ¬collinearPts (points2D ptsDup) ∧
      ((0 : ℝ), (-100 : ℝ), (0 : ℝ)) ∈ toTriples ptsDup ∧
      ¬insideBox (fromPoints mbrInit ptsDup) ⟨0, -100, 0⟩ 1 := by
  refine ⟨by rw [points2D_ptsDup]; norm_num, not_collinear_sq, ?_, ?_⟩
  · rw [toTriples_ptsDup]; simp
  · intro h
    have hy := h.2.1
    rw [fromPoints_ptsDup] at hy
    norm_num [localOffset, applyTranspose, v3sub, identity4] at hy

/-- C9 counterexample: on the non-degenerate input `ptsDup` (15 scalar
values, 4 unique non-collinear projections) the vertical half-size is 0:
a half-size component can vanish outside the claim's degenerate cases. -/
theorem C9_counterexample :
    (fromPoints mbrInit ptsDup).halfSizes.y = 0 ∧ ¬degenerateInput ptsDup := by
  constructor
  · rw [fromPoints_ptsDup]
  · rw [degenerateInput]
    push_neg
    exact ⟨by norm_num [ptsDup], by rw [points2D_ptsDup]; norm_num, not_collinear_sq⟩

/-- Closed witness for `C5_box_reconstruction`. -/
theorem C5_box_reconstruction_witness :
    ¬ptsDup.length < 9 ∧ ¬(points2D ptsDup).length < 3 ∧
      fromPoints mbrInit ptsDup =
        { center := ⟨(enhancedRotatingCalipers (grahamScan (points2D ptsDup))).center.x +
                       centroidX ptsDup,
                     (mbrMinY ptsDup + mbrMaxY ptsDup) * 0.5,
                     (enhancedRotatingCalipers (grahamScan (points2D ptsDup))).center.y +
                       centroidZ ptsDup⟩
          halfSizes := ⟨(enhancedRotatingCalipers (grahamScan (points2D ptsDup))).width * 0.5,
                        (mbrMaxY ptsDup - mbrMinY ptsDup) * 0.5,
                        (enhancedRotatingCalipers (grahamScan (points2D ptsDup))).height * 0.5⟩
          rotation :=
            makeRotationY
              (-(enhancedRotatingCalipers (grahamScan (points2D ptsDup))).angle) } := by
  have h9 : ¬ptsDup.length < 9 := by norm_num [ptsDup]
  have h3 : ¬(points2D ptsDup).length < 3 := by rw [points2D_ptsDup]; norm_num
  exact ⟨h9, h3, C5_box_reconstruction mbrInit ptsDup h9 h3⟩

/-! ### A tolerance tie dropping a true hull vertex -/

theorem arctan_lt_self (x : ℝ) (hx : 0 < x) : Real.arctan x < x := by
  have h1 : 0 < Real.arctan x := by
    rw [← Real.arctan_zero]
    exact Real.arctan_strictMono hx
  have h3 := Real.lt_tan h1 (Real.arctan_lt_pi_div_two x)
  rwa [Real.tan_arctan] at h3

theorem angle_pG_bG : angleAround pG bG = Real.arctan (1 / 10000000000) := by
  rw [angleAround, pG, bG]
  norm_num [atan2]

theorem angle_pG_aG : angleAround pG aG = 0 := by
  rw [angleAround, pG, aG]
  norm_num [atan2, Real.arctan_zero]

theorem tie_bG_aG : |angleAround pG bG - angleAround pG aG| < epsDir := by
  have hnn : 0 ≤ Real.arctan (1 / 10000000000) := by
    rw [← Real.arctan_zero]
    exact Real.arctan_strictMono.monotone (by norm_num)
  rw [angle_pG_bG, angle_pG_aG, sub_zero, epsDir, abs_of_nonneg hnn]
  exact arctan_lt_self _ (by norm_num)

theorem cmp_bG_aG : polarCompare pG bG aG ≤ 0 := by
  rw [polarCompare, if_pos tie_bG_aG]
  have hb : bG.distanceTo pG ≤ 10 := by
    rw [Vector2.distanceTo, pG, bG]
    have h100 : Real.sqrt 100 = 10 := by
      rw [show (100 : ℝ) = 10 ^ 2 by norm_num, Real.sqrt_sq (by norm_num)]
    calc Real.sqrt ((2 - 0) * (2 - 0) + (2 / 10000000000 - 0) * (2 / 10000000000 - 0))
        ≤ Real.sqrt 100 := Real.sqrt_le_sqrt (by norm_num)
      _ = 10 := h100
  have ha : aG.distanceTo pG = 10 := by
    rw [Vector2.distanceTo, pG, aG]
    rw [show (10 - 0 : ℝ) * (10 - 0) + (0 - 0) * (0 - 0) = 10 ^ 2 by norm_num,
      Real.sqrt_sq (by norm_num)]
  rw [ha]
  linarith

theorem sort_tie : sortByAngle pG [bG, aG] = [bG, aG] := by
  rw [sortByAngle]
  simp only [List.insertionSort, List.orderedInsert]
  rw [if_pos cmp_bG_aG]

theorem grahamScan_tie : grahamScan [pG, bG, aG] = [pG, aG] := by
  rw [grahamScan.eq_def, if_neg (by norm_num)]
  show scanStack (bottomAux pG 0 1 [bG, aG]).1
      (sortByAngle (bottomAux pG 0 1 [bG, aG]).1
        ([pG, bG, aG].eraseIdx (bottomAux pG 0 1 [bG, aG]).2)) = _
  rw [show bottomAux pG 0 1 [bG, aG] = (pG, 0) from by
    norm_num [bottomAux, pG, bG, aG]]
  show scanStack pG (sortByAngle pG [bG, aG]) = _
  rw [sort_tie, scanStack]
  simp only [List.foldl_cons, List.foldl_nil]
  rw [show popWhile [bG, pG] aG = [pG] from by
    rw [popWhile, if_pos (by norm_num [crossProduct, pG, bG, aG])]
    rfl]
  simp

/-- C4 counterexample: the input `[pG, bG, aG]` has three pairwise
distinct, non-collinear points, yet the returned sequence is `[pG, aG]`
(the polar-angle tie tolerance sorts the nearer point `bG` first and the
scan then discards it), which is not a strictly convex CCW polygon: its
cyclic triples have cross product 0. -/
theorem C4_counterexample :
    pG ≠ bG ∧ pG ≠ aG ∧ bG ≠ aG ∧ crossProduct pG bG aG ≠ 0 ∧
      ¬cyclicTriplesPos (grahamScan [pG, bG, aG]) := by
  refine ⟨?_, ?_, ?_, ?_, ?_⟩
  · intro h; rw [pG, bG, Vector2.mk.injEq] at h; norm_num at h
  · intro h; rw [pG, aG, Vector2.mk.injEq] at h; norm_num at h
  · intro h; rw [bG, aG, Vector2.mk.injEq] at h; norm_num at h
  · norm_num [crossProduct, pG, bG, aG]
  · rw [grahamScan_tie]
    intro h
    have h0 := h 0 (by norm_num)
    norm_num [crossProduct, pG, aG, List.getD_cons_zero, List.getD_cons_succ] at h0

/-! ### C1: minimality over the retained direction list -/

theorem calipers_eq_bestOf (hull : List Vector2) (h3 : 3 ≤ hull.length) :
    ∃ d0 ds, getUniqueEdgeDirections hull = d0 :: ds ∧
      enhancedRotatingCalipers hull = bestOf hull (candidateFor hull d0) ds := by
  have hne : getUniqueEdgeDirections hull ≠ [] := by
    refine getUniqueEdgeDirections_ne_nil hull ?_
    intro h
    rw [h] at h3
    simp at h3
  rcases hd : getUniqueEdgeDirections hull with _ | ⟨d0, ds⟩
  · exact absurd hd hne
  · refine ⟨d0, ds, rfl, ?_⟩
    rw [enhancedRotatingCalipers, if_neg (by omega), hd, List.foldl_cons,
      show calipersStep hull none d0 = some (candidateFor hull d0) from rfl,
      foldl_calipersStep_some]

/-- C1 (amended): for every hull with at least 3 vertices, the rectangle
returned by the calipers search has area ≤ the area of the candidate
rectangle of every direction retained in the unique-direction list, and it
is the candidate of the first retained direction attaining that minimum
(encounter order; the fold updates only on strict improvement).  Edge
directions merged away by the `1 - 1e-10` dot-product tolerance are not
covered by this bound (see the counterexample). -/
theorem C1_amended_min_over_retained_directions (hull : List Vector2)
    (h3 : 3 ≤ hull.length) :
    (∀ d ∈ getUniqueEdgeDirections hull,
        rectArea (enhancedRotatingCalipers hull) ≤ rectArea (candidateFor hull d)) ∧
      ∃ i, ∃ hi : i < (getUniqueEdgeDirections hull).length,
        enhancedRotatingCalipers hull =
          candidateFor hull ((getUniqueEdgeDirections hull).get ⟨i, hi⟩) ∧
        ∀ j, ∀ hj : j < i,
          rectArea (enhancedRotatingCalipers hull) <
            rectArea (candidateFor hull
              ((getUniqueEdgeDirections hull).get ⟨j, lt_trans hj hi⟩)) := by
  rcases calipers_eq_bestOf hull h3 with ⟨d0, ds, hd, heq⟩
  rw [hd, heq]
  simp only [rectArea]
  constructor
  · intro d hdm
    rcases List.mem_cons.mp hdm with rfl | hmem
    · exact bestOf_le_seed hull _ ds
    · exact bestOf_le_mem hull _ ds d hmem
  · rcases bestOf_firstWins hull ds (candidateFor hull d0) with hkeep |
      ⟨i, hi, hbi, hstrict, hear⟩
    · refine ⟨0, by simp, by rw [hkeep]; simp, ?_⟩
      intro j hj
      cases hj
    · refine ⟨i + 1, by simpa using Nat.succ_lt_succ hi, by rw [hbi]; simp, ?_⟩
      intro j hj
      cases j with
      | zero => simpa using hstrict
      | succ k =>
        have hk : k < i := Nat.lt_of_succ_lt_succ hj
        simpa using hear k hk

/-- Closed witness for `C1_amended_min_over_retained_directions`. -/
theorem C1_amended_witness :
    3 ≤ ([aSq, bSq, cSq, dSq] : List Vector2).length ∧
      ((∀ d ∈ getUniqueEdgeDirections [aSq, bSq, cSq, dSq],
          rectArea (enhancedRotatingCalipers [aSq, bSq, cSq, dSq]) ≤
            rectArea (candidateFor [aSq, bSq, cSq, dSq] d)) ∧
        ∃ i, ∃ hi : i < (getUniqueEdgeDirections [aSq, bSq, cSq, dSq]).length,
          enhancedRotatingCalipers [aSq, bSq, cSq, dSq] =
            candidateFor [aSq, bSq, cSq, dSq]
              ((getUniqueEdgeDirections [aSq, bSq, cSq, dSq]).get ⟨i, hi⟩) ∧
          ∀ j, ∀ hj : j < i,
            rectArea (enhancedRotatingCalipers [aSq, bSq, cSq, dSq]) <
              rectArea (candidateFor [aSq, bSq, cSq, dSq]
                ((getUniqueEdgeDirections [aSq, bSq, cSq, dSq]).get
                  ⟨j, lt_trans hj hi⟩))) :=
  ⟨by norm_num, C1_amended_min_over_retained_directions [aSq, bSq, cSq, dSq] (by norm_num)⟩

/-! ### C1 counterexample: a merged-away direction with strictly smaller
edge-aligned rectangle -/

theorem normalize_def (v : Vector2) (h : 0 < v.x * v.x + v.y * v.y) :
    normalize v = ⟨v.x / Real.sqrt (v.x * v.x + v.y * v.y),
                   v.y / Real.sqrt (v.x * v.x + v.y * v.y)⟩ := by
  rw [normalize, Vector2.len, if_neg (Real.sqrt_ne_zero'.mpr h)]

theorem not_near_one_of_nonpos {x : ℝ} (hx : x ≤ 0) : ¬|x - 1| < epsDir := by
  rw [abs_of_nonpos (by linarith), epsDir]
  intro h
  linarith

theorem not_near_one_of_le {x c : ℝ} (hx : x ≤ c) (hc : c ≤ 1 - epsDir) :
    ¬|x - 1| < epsDir := by
  intro h
  have h1 := (abs_lt.mp h).1
  linarith

theorem div_sqrt_le_of_sq {num S c : ℝ} (hS : 0 < S) (hc : 0 < c)
    (h : num * num ≤ c * c * S) : num / Real.sqrt S ≤ c := by
  rw [div_le_iff (Real.sqrt_pos.mpr hS)]
  rcases le_or_lt num 0 with h0 | h0
  · exact le_trans h0 (mul_nonneg hc.le (Real.sqrt_nonneg S))
  · have h1 : num ≤ Real.sqrt (c * c * S) := by
      rw [← Real.sqrt_mul_self h0.le]
      exact Real.sqrt_le_sqrt h
    rwa [Real.sqrt_mul (mul_self_nonneg c) S, Real.sqrt_mul_self hc.le] at h1

theorem s1Q_pos : (0 : ℝ) < s1Q := by norm_num [s1Q]

theorem s3Q_pos : (0 : ℝ) < s3Q := by norm_num [s3Q]

theorem sqrt_s1Q_pos : 0 < Real.sqrt s1Q := Real.sqrt_pos.mpr s1Q_pos

theorem sqrt_s3Q_pos : 0 < Real.sqrt s3Q := Real.sqrt_pos.mpr s3Q_pos

theorem norm_e0Q : normalize ⟨3, 0⟩ = ⟨1, 0⟩ := by
  have h9 : Real.sqrt ((3 : ℝ) * 3 + 0 * 0) = 3 := by
    rw [show (3 : ℝ) * 3 + 0 * 0 = 3 ^ 2 by norm_num, Real.sqrt_sq (by norm_num)]
  rw [normalize_def _ (by norm_num), h9]
  norm_num

theorem norm_e1Q : normalize ⟨-4, 1 + 1 / 100000⟩ = u1Q := by
  have hs : (-4 : ℝ) * (-4) + (1 + 1 / 100000) * (1 + 1 / 100000) = s1Q := by
    norm_num [s1Q]
  rw [normalize_def _ (by norm_num), hs]
  rfl

theorem norm_e2Q : normalize ⟨-1, -1⟩ = u2Q := by
  have hs : (-1 : ℝ) * (-1) + (-1) * (-1) = 2 := by norm_num
  rw [normalize_def _ (by norm_num), hs]
  rfl

theorem norm_e3Q : normalize ⟨2, -(1 / 100000)⟩ = u3Q := by
  have hs : (2 : ℝ) * 2 + -(1 / 100000) * -(1 / 100000) = s3Q := by norm_num [s3Q]
  rw [normalize_def _ (by norm_num), hs]
  rfl

theorem dot_u1Q_d0 : u1Q.dot ⟨1, 0⟩ = -4 / Real.sqrt s1Q := by
  rw [u1Q, Vector2.dot]
  ring

theorem dot_u2Q_d0 : u2Q.dot ⟨1, 0⟩ = -1 / Real.sqrt 2 := by
  rw [u2Q, Vector2.dot]
  ring

theorem dot_u2Q_u1Q : u2Q.dot u1Q = (3 - 1 / 100000) / Real.sqrt (2 * s1Q) := by
  have h2 : Real.sqrt 2 ≠ 0 := ne_of_gt (Real.sqrt_pos.mpr (by norm_num))
  have hs1 : Real.sqrt s1Q ≠ 0 := ne_of_gt sqrt_s1Q_pos
  rw [u2Q, u1Q, Vector2.dot, Real.sqrt_mul (by norm_num : (0 : ℝ) ≤ 2) s1Q]
  field_simp
  ring

theorem dot_u3Q_d0 : u3Q.dot ⟨1, 0⟩ = 2 / Real.sqrt s3Q := by
  rw [u3Q, Vector2.dot]
  ring

theorem u3Q_merge : |u3Q.dot ⟨1, 0⟩ - 1| < epsDir := by
  rw [dot_u3Q_d0]
  have hup : 2 / Real.sqrt s3Q ≤ 1 := by
    rw [div_le_one sqrt_s3Q_pos, Real.le_sqrt' (by norm_num)]
    norm_num [s3Q]
  have hlow : 1 - epsDir < 2 / Real.sqrt s3Q := by
    have hlt : Real.sqrt s3Q < 2 / (1 - epsDir) := by
      rw [Real.sqrt_lt' (by norm_num [epsDir])]
      rw [div_pow, lt_div_iff (by norm_num [epsDir])]
      norm_num [s3Q, epsDir]
    rw [lt_div_iff sqrt_s3Q_pos]
    calc (1 - epsDir) * Real.sqrt s3Q
        < (1 - epsDir) * (2 / (1 - epsDir)) := by
          exact mul_lt_mul_of_pos_left hlt (by norm_num [epsDir])
      _ = 2 := by
          have hne : (1 : ℝ) - epsDir ≠ 0 := by norm_num [epsDir]
          field_simp
  rw [abs_lt, epsDir] at *
  constructor <;> [linarith [hlow]; linarith [hup]]

theorem dirsQ : getUniqueEdgeDirections [bQ, cQ, dQ, aQ] = [⟨1, 0⟩, u1Q, u2Q] := by
  have s0 : uniqueDirStep [bQ, cQ, dQ, aQ] [] 0 = [⟨1, 0⟩] := by
    rw [uniqueDirStep]
    simp only [List.getD_cons_zero, List.getD_cons_succ, List.length_cons,
      List.length_nil, bQ, cQ]
    rw [show (5 : ℝ) - 2 = 3 by norm_num,
      show -(1 / 100000 : ℝ) - -(1 / 100000) = 0 by norm_num, norm_e0Q,
      if_neg (by simp)]
    rfl
  have s1 : uniqueDirStep [bQ, cQ, dQ, aQ] [⟨1, 0⟩] 1 = [⟨1, 0⟩, u1Q] := by
    rw [uniqueDirStep]
    simp only [List.getD_cons_zero, List.getD_cons_succ, List.length_cons,
      List.length_nil, cQ, dQ]
    rw [show (1 : ℝ) - 5 = -4 by norm_num,
      show (1 : ℝ) - -(1 / 100000) = 1 + 1 / 100000 by norm_num, norm_e1Q]
    rw [if_neg ?_]
    · rfl
    · intro hex
      rcases hex with ⟨dir, hdir, habs⟩
      rw [List.mem_singleton] at hdir
      subst hdir
      revert habs
      refine not_near_one_of_nonpos ?_
      rw [dot_u1Q_d0]
      exact div_nonpos_of_nonpos_of_nonneg (by norm_num) (Real.sqrt_nonneg _)
  have s2 : uniqueDirStep [bQ, cQ, dQ, aQ] [⟨1, 0⟩, u1Q] 2 = [⟨1, 0⟩, u1Q, u2Q] := by
    rw [uniqueDirStep]
    simp only [List.getD_cons_zero, List.getD_cons_succ, List.length_cons,
      List.length_nil, dQ, aQ]
    rw [show (0 : ℝ) - 1 = -1 by norm_num, norm_e2Q]
    rw [if_neg ?_]
    · rfl
    · intro hex
      rcases hex with ⟨dir, hdir, habs⟩
      rcases List.mem_cons.mp hdir with rfl | hdir2
      · revert habs
        refine not_near_one_of_nonpos ?_
        rw [dot_u2Q_d0]
        exact div_nonpos_of_nonpos_of_nonneg (by norm_num) (Real.sqrt_nonneg _)
      · rw [List.mem_singleton] at hdir2
        subst hdir2
        have hb : u2Q.dot u1Q ≤ 9 / 10 := by
          rw [dot_u2Q_u1Q]
          refine div_sqrt_le_of_sq (by norm_num [s1Q]) (by norm_num : (0 : ℝ) < 9 / 10) ?_
          norm_num [s1Q]
        exact absurd habs (not_near_one_of_le hb (by norm_num [epsDir]))
  have s3 : uniqueDirStep [bQ, cQ, dQ, aQ] [⟨1, 0⟩, u1Q, u2Q] 3 =
      [⟨1, 0⟩, u1Q, u2Q] := by
    rw [uniqueDirStep,
      show (3 + 1) % ([bQ, cQ, dQ, aQ] : List Vector2).length = 0 from rfl]
    simp only [List.getD_cons_zero, List.getD_cons_succ, aQ, bQ]
    rw [show (2 : ℝ) - 0 = 2 by norm_num,
      show -(1 / 100000 : ℝ) - 0 = -(1 / 100000) by norm_num, norm_e3Q]
    rw [if_pos ⟨⟨1, 0⟩, by simp, u3Q_merge⟩]
  rw [getUniqueEdgeDirections,
    show ([bQ, cQ, dQ, aQ] : List Vector2).length = 4 from rfl,
    show List.range 4 = [0, 1, 2, 3] from rfl]
  simp only [List.foldl_cons, List.foldl_nil]
  rw [s0, s1, s2, s3]

theorem listMin4_div (q1 q2 q3 q4 L : ℝ) (hL : 0 < L) :
    listMin [q1 / L, q2 / L, q3 / L, q4 / L] = listMin [q1, q2, q3, q4] / L := by
  simp only [listMin, List.foldl_cons, List.foldl_nil]
  rw [min_div_div_right hL.le, min_div_div_right hL.le, min_div_div_right hL.le]

theorem listMax4_div (q1 q2 q3 q4 L : ℝ) (hL : 0 < L) :
    listMax [q1 / L, q2 / L, q3 / L, q4 / L] = listMax [q1, q2, q3, q4] / L := by
  simp only [listMax, List.foldl_cons, List.foldl_nil]
  rw [max_div_div_right hL.le, max_div_div_right hL.le, max_div_div_right hL.le]

theorem div_mul_div_self_sqrt (a b s : ℝ) (hs : 0 ≤ s) :
    a / Real.sqrt s * (b / Real.sqrt s) = a * b / s := by
  rw [div_mul_div_comm, Real.mul_self_sqrt hs]

theorem dot_u1Q (p : Vector2) :
    p.dot u1Q = (p.x * -4 + p.y * (1 + 1 / 100000)) / Real.sqrt s1Q := by
  simp only [u1Q, Vector2.dot]
  ring

theorem dot_p1Q (p : Vector2) :
    p.dot ⟨-u1Q.y, u1Q.x⟩ = (p.x * -(1 + 1 / 100000) + p.y * -4) / Real.sqrt s1Q := by
  simp only [u1Q, Vector2.dot]
  ring

theorem dot_u2Q (p : Vector2) :
    p.dot u2Q = (p.x * -1 + p.y * -1) / Real.sqrt 2 := by
  simp only [u2Q, Vector2.dot]
  ring

theorem dot_p2Q (p : Vector2) :
    p.dot ⟨-u2Q.y, u2Q.x⟩ = (p.x * 1 + p.y * -1) / Real.sqrt 2 := by
  simp only [u2Q, Vector2.dot]
  ring

theorem dot_u3Q (p : Vector2) :
    p.dot u3Q = (p.x * 2 + p.y * -(1 / 100000)) / Real.sqrt s3Q := by
  simp only [u3Q, Vector2.dot]
  ring

theorem dot_p3Q (p : Vector2) :
    p.dot ⟨-u3Q.y, u3Q.x⟩ = (p.x * (1 / 100000) + p.y * 2) / Real.sqrt s3Q := by
  simp only [u3Q, Vector2.dot]
  ring

theorem projQ1 : getExtremeProjections [bQ, cQ, dQ, aQ] u1Q =
    (-(20 + 1 / 100000 + 1 / 10000000000) / Real.sqrt s1Q, 0 / Real.sqrt s1Q) := by
  rw [getExtremeProjections]
  simp only [List.map_cons, List.map_nil, dot_u1Q, bQ, cQ, dQ, aQ]
  rw [listMin4_div _ _ _ _ _ sqrt_s1Q_pos, listMax4_div _ _ _ _ _ sqrt_s1Q_pos]
  rw [show listMin [(2 : ℝ) * -4 + -(1 / 100000) * (1 + 1 / 100000),
        5 * -4 + -(1 / 100000) * (1 + 1 / 100000), 1 * -4 + 1 * (1 + 1 / 100000),
        0 * -4 + 0 * (1 + 1 / 100000)] = -(20 + 1 / 100000 + 1 / 10000000000) from by
      norm_num [listMin, min_def]]
  rw [show listMax [(2 : ℝ) * -4 + -(1 / 100000) * (1 + 1 / 100000),
        5 * -4 + -(1 / 100000) * (1 + 1 / 100000), 1 * -4 + 1 * (1 + 1 / 100000),
        0 * -4 + 0 * (1 + 1 / 100000)] = 0 from by
      norm_num [listMax, max_def]]

theorem projP1 : getExtremeProjections [bQ, cQ, dQ, aQ] ⟨-u1Q.y, u1Q.x⟩ =
    (-(5 + 1 / 100000) / Real.sqrt s1Q, 0 / Real.sqrt s1Q) := by
  rw [getExtremeProjections]
  simp only [List.map_cons, List.map_nil, dot_p1Q, bQ, cQ, dQ, aQ]
  rw [listMin4_div _ _ _ _ _ sqrt_s1Q_pos, listMax4_div _ _ _ _ _ sqrt_s1Q_pos]
  rw [show listMin [(2 : ℝ) * -(1 + 1 / 100000) + -(1 / 100000) * -4,
        5 * -(1 + 1 / 100000) + -(1 / 100000) * -4, 1 * -(1 + 1 / 100000) + 1 * -4,
        0 * -(1 + 1 / 100000) + 0 * -4] = -(5 + 1 / 100000) from by
      norm_num [listMin, min_def]]
  rw [show listMax [(2 : ℝ) * -(1 + 1 / 100000) + -(1 / 100000) * -4,
        5 * -(1 + 1 / 100000) + -(1 / 100000) * -4, 1 * -(1 + 1 / 100000) + 1 * -4,
        0 * -(1 + 1 / 100000) + 0 * -4] = 0 from by
      norm_num [listMax, max_def]]

theorem sqrt_two_pos : (0 : ℝ) < Real.sqrt 2 := Real.sqrt_pos.mpr (by norm_num)

theorem projQ2 : getExtremeProjections [bQ, cQ, dQ, aQ] u2Q =
    ((-5 + 1 / 100000) / Real.sqrt 2, 0 / Real.sqrt 2) := by
  rw [getExtremeProjections]
  simp only [List.map_cons, List.map_nil, dot_u2Q, bQ, cQ, dQ, aQ]
  rw [listMin4_div _ _ _ _ _ sqrt_two_pos, listMax4_div _ _ _ _ _ sqrt_two_pos]
  rw [show listMin [(2 : ℝ) * -1 + -(1 / 100000) * -1, 5 * -1 + -(1 / 100000) * -1,
        1 * -1 + 1 * -1, 0 * -1 + 0 * -1] = -5 + 1 / 100000 from by
      norm_num [listMin, min_def]]
  rw [show listMax [(2 : ℝ) * -1 + -(1 / 100000) * -1, 5 * -1 + -(1 / 100000) * -1,
        1 * -1 + 1 * -1, 0 * -1 + 0 * -1] = 0 from by
      norm_num [listMax, max_def]]

theorem projP2 : getExtremeProjections [bQ, cQ, dQ, aQ] ⟨-u2Q.y, u2Q.x⟩ =
    (0 / Real.sqrt 2, (5 + 1 / 100000) / Real.sqrt 2) := by
  rw [getExtremeProjections]
  simp only [List.map_cons, List.map_nil, dot_p2Q, bQ, cQ, dQ, aQ]
  rw [listMin4_div _ _ _ _ _ sqrt_two_pos, listMax4_div _ _ _ _ _ sqrt_two_pos]
  rw [show listMin [(2 : ℝ) * 1 + -(1 / 100000) * -1, 5 * 1 + -(1 / 100000) * -1,
        1 * 1 + 1 * -1, 0 * 1 + 0 * -1] = 0 from by
      norm_num [listMin, min_def]]
  rw [show listMax [(2 : ℝ) * 1 + -(1 / 100000) * -1, 5 * 1 + -(1 / 100000) * -1,
        1 * 1 + 1 * -1, 0 * 1 + 0 * -1] = 5 + 1 / 100000 from by
      norm_num [listMax, max_def]]

theorem projQ3 : getExtremeProjections [bQ, cQ, dQ, aQ] u3Q =
    (0 / Real.sqrt s3Q, (10 + 1 / 10000000000) / Real.sqrt s3Q) := by
  rw [getExtremeProjections]
  simp only [List.map_cons, List.map_nil, dot_u3Q, bQ, cQ, dQ, aQ]
  rw [listMin4_div _ _ _ _ _ sqrt_s3Q_pos, listMax4_div _ _ _ _ _ sqrt_s3Q_pos]
  rw [show listMin [(2 : ℝ) * 2 + -(1 / 100000) * -(1 / 100000),
        5 * 2 + -(1 / 100000) * -(1 / 100000), 1 * 2 + 1 * -(1 / 100000),
        0 * 2 + 0 * -(1 / 100000)] = 0 from by
      norm_num [listMin, min_def]]
  rw [show listMax [(2 : ℝ) * 2 + -(1 / 100000) * -(1 / 100000),
        5 * 2 + -(1 / 100000) * -(1 / 100000), 1 * 2 + 1 * -(1 / 100000),
        0 * 2 + 0 * -(1 / 100000)] = 10 + 1 / 10000000000 from by
      norm_num [listMax, max_def]]

theorem projP3 : getExtremeProjections [bQ, cQ, dQ, aQ] ⟨-u3Q.y, u3Q.x⟩ =
    (0 / Real.sqrt s3Q, (2 + 1 / 100000) / Real.sqrt s3Q) := by
  rw [getExtremeProjections]
  simp only [List.map_cons, List.map_nil, dot_p3Q, bQ, cQ, dQ, aQ]
  rw [listMin4_div _ _ _ _ _ sqrt_s3Q_pos, listMax4_div _ _ _ _ _ sqrt_s3Q_pos]
  rw [show listMin [(2 : ℝ) * (1 / 100000) + -(1 / 100000) * 2,
        5 * (1 / 100000) + -(1 / 100000) * 2, 1 * (1 / 100000) + 1 * 2,
        0 * (1 / 100000) + 0 * 2] = 0 from by
      norm_num [listMin, min_def]]
  rw [show listMax [(2 : ℝ) * (1 / 100000) + -(1 / 100000) * 2,
        5 * (1 / 100000) + -(1 / 100000) * 2, 1 * (1 / 100000) + 1 * 2,
        0 * (1 / 100000) + 0 * 2] = 2 + 1 / 100000 from by
      norm_num [listMax, max_def]]

theorem candQ0_w : (candidateFor [bQ, cQ, dQ, aQ] ⟨1, 0⟩).width = 5 := by
  rw [candidateFor]
  norm_num [getExtremeProjections, Vector2.dot, bQ, cQ, dQ, aQ, listMin, listMax,
    min_def, max_def]

theorem candQ0_h : (candidateFor [bQ, cQ, dQ, aQ] ⟨1, 0⟩).height = 1 + 1 / 100000 := by
  rw [candidateFor]
  norm_num [getExtremeProjections, Vector2.dot, bQ, cQ, dQ, aQ, listMin, listMax,
    min_def, max_def]

theorem candQ1_w : (candidateFor [bQ, cQ, dQ, aQ] u1Q).width =
    (20 + 1 / 100000 + 1 / 10000000000) / Real.sqrt s1Q := by
  simp only [candidateFor, projQ1]
  rw [div_sub_div_same]
  norm_num

theorem candQ1_h : (candidateFor [bQ, cQ, dQ, aQ] u1Q).height =
    (5 + 1 / 100000) / Real.sqrt s1Q := by
  simp only [candidateFor, projP1]
  rw [div_sub_div_same]
  norm_num

theorem candQ2_w : (candidateFor [bQ, cQ, dQ, aQ] u2Q).width =
    (5 - 1 / 100000) / Real.sqrt 2 := by
  simp only [candidateFor, projQ2]
  rw [div_sub_div_same]
  norm_num

theorem candQ2_h : (candidateFor [bQ, cQ, dQ, aQ] u2Q).height =
    (5 + 1 / 100000) / Real.sqrt 2 := by
  simp only [candidateFor, projP2]
  rw [div_sub_div_same]
  norm_num

theorem stepQ1 :
    calipersStep [bQ, cQ, dQ, aQ] (some (candidateFor [bQ, cQ, dQ, aQ] ⟨1, 0⟩)) u1Q =
      some (candidateFor [bQ, cQ, dQ, aQ] ⟨1, 0⟩) := by
  rw [calipersStep]
  rw [if_neg ?_]
  rw [candQ1_w, candQ1_h, candQ0_w, candQ0_h,
    div_mul_div_self_sqrt _ _ _ s1Q_pos.le, not_lt, le_div_iff s1Q_pos]
  norm_num [s1Q]

theorem stepQ2 :
    calipersStep [bQ, cQ, dQ, aQ] (some (candidateFor [bQ, cQ, dQ, aQ] ⟨1, 0⟩)) u2Q =
      some (candidateFor [bQ, cQ, dQ, aQ] ⟨1, 0⟩) := by
  rw [calipersStep]
  rw [if_neg ?_]
  rw [candQ2_w, candQ2_h, candQ0_w, candQ0_h,
    div_mul_div_self_sqrt _ _ _ (by norm_num : (0 : ℝ) ≤ 2), not_lt,
    le_div_iff (by norm_num : (0 : ℝ) < 2)]
  norm_num

theorem calipersQ : enhancedRotatingCalipers [bQ, cQ, dQ, aQ] =
    candidateFor [bQ, cQ, dQ, aQ] ⟨1, 0⟩ := by
  rw [enhancedRotatingCalipers, if_neg (by norm_num), dirsQ]
  simp only [List.foldl_cons, List.foldl_nil]
  rw [show calipersStep [bQ, cQ, dQ, aQ] none ⟨1, 0⟩ =
      some (candidateFor [bQ, cQ, dQ, aQ] ⟨1, 0⟩) from rfl, stepQ1, stepQ2]

theorem edgeQ3 : edgeAlignedArea [bQ, cQ, dQ, aQ] 3 =
    (10 + 1 / 10000000000) * (2 + 1 / 100000) / s3Q := by
  simp only [edgeAlignedArea]
  rw [show (3 + 1) % ([bQ, cQ, dQ, aQ] : List Vector2).length = 0 from rfl,
    show ([bQ, cQ, dQ, aQ] : List Vector2).getD 3 ⟨0, 0⟩ = aQ from rfl,
    show ([bQ, cQ, dQ, aQ] : List Vector2).getD 0 ⟨0, 0⟩ = bQ from rfl,
    show bQ.x - aQ.x = (2 : ℝ) from by rw [bQ, aQ]; norm_num,
    show bQ.y - aQ.y = -(1 / 100000 : ℝ) from by rw [bQ, aQ]; norm_num,
    norm_e3Q]
  rw [projQ3, projP3, div_sub_div_same, div_sub_div_same,
    div_mul_div_self_sqrt _ _ _ s3Q_pos.le]
  norm_num

/-- C1 counterexample: the strictly convex CCW quadrilateral
`[bQ, cQ, dQ, aQ]` has closing edge `aQ → bQ` with direction `(2, -1e-5)`,
which the `1 - 1e-10` dot tolerance merges into the first direction
`(1, 0)`; the edge-aligned bounding rectangle of that merged-away edge has
area `(10 + 1e-10)(2 + 1e-5)/(4 + 1e-10) ≈ 5.00010`, strictly smaller than
the area `5(1 + 1e-5) = 5.00005`… i.e. strictly smaller than the returned
rectangle's area `5 + 5e-5`, so the returned rectangle is **not** minimal
over all edge-aligned rectangles of the hull. -/
theorem C1_counterexample :
    3 ≤ ([bQ, cQ, dQ, aQ] : List Vector2).length ∧
      cyclicTriplesPos [bQ, cQ, dQ, aQ] ∧
      edgeAlignedArea [bQ, cQ, dQ, aQ] 3 <
        rectArea (enhancedRotatingCalipers [bQ, cQ, dQ, aQ]) := by
  refine ⟨by norm_num, ?_, ?_⟩
  · intro i hi
    have hi4 : i < 4 := by simpa using hi
    interval_cases i <;>
      norm_num [crossProduct, bQ, cQ, dQ, aQ, List.getD_cons_zero, List.getD_cons_succ,
        List.length_cons, List.length_nil]
  · rw [edgeQ3, calipersQ, rectArea, candQ0_w, candQ0_h, div_lt_iff s3Q_pos]
    norm_num [s3Q]

end MBR

end
